import Mathlib

/-!
# Verification of the Skim transformation engine

Shallow embedding of the transformation engine of the `skim` repository
(`crates/skim-wasm/src/wrapper.js`): tree-sitter AST nodes, the four
transformation modes (structure, signatures, types, full), and the
replacement splice writer.  Sources are modelled as `List Char` (JavaScript
strings with the code-unit indices tree-sitter reports); machine floats do
not occur in the embedded fragment except for `reductionPercentage`, which
is modelled as `Option ℚ` (`none` standing for the non-finite value that
JavaScript division by zero produces).
-/

set_option maxHeartbeats 1000000

namespace Skim

/-- A tree-sitter syntax node as the wrapper consumes it: a kind string
(`node.type`), code-unit offsets `startIndex`/`endIndex`, and the ordered
list of children. -/
inductive TSNode : Type where
  | mk (type : String) (startIndex : Nat) (endIndex : Nat) (children : List TSNode)

namespace TSNode

def type : TSNode → String
  | .mk t _ _ _ => t

def startIndex : TSNode → Nat
  | .mk _ s _ _ => s

def endIndex : TSNode → Nat
  | .mk _ _ e _ => e

def children : TSNode → List TSNode
  | .mk _ _ _ c => c

/-- Number of nodes of the tree. -/
def nodeCount : TSNode → Nat
  | .mk _ _ _ cs => 1 + ((cs.attach.map (fun c => nodeCount c.1)).sum)
decreasing_by
  have := List.sizeOf_lt_of_mem c.2
  simp [TSNode.mk.sizeOf_spec]
  omega

/-- Depth of the tree (ancestor count of the deepest node, the root counting 1). -/
def depth : TSNode → Nat
  | .mk _ _ _ cs => 1 + ((cs.attach.map (fun c => depth c.1)).foldr max 0)
decreasing_by
  have := List.sizeOf_lt_of_mem c.2
  simp [TSNode.mk.sizeOf_spec]
  omega

/-- The depth-first pre-order listing of the nodes of a tree: the node
itself, then the pre-orders of the children in order.  This is the order in
which the wrapper's recursive `visit` functions inspect nodes. -/
def preorder : TSNode → List TSNode
  | .mk t s e cs => .mk t s e cs :: (cs.attach.map (fun c => preorder c.1)).flatten
decreasing_by
  have := List.sizeOf_lt_of_mem c.2
  simp [TSNode.mk.sizeOf_spec]
  omega

/-- Induction over a `TSNode` from the induction hypothesis for each member
of the child list. -/
theorem ind_mem {P : TSNode → Prop}
    (h : ∀ t s e cs, (∀ c ∈ cs, P c) → P (TSNode.mk t s e cs)) :
    ∀ n, P n
  | .mk t s e cs => h t s e cs (fun c hc => ind_mem h c)
decreasing_by
  have := List.sizeOf_lt_of_mem hc
  simp [TSNode.mk.sizeOf_spec]
  omega

end TSNode

/-- Predicate `isFunctionNode` of `wrapper.js`: node kinds treated as
function/method declarations (the `body_bearing_kinds`). -/
def isFunctionNode (kind : String) : Bool :=
  [ "function_declaration",
    "function_definition",
    "function_item",
    "method_declaration",
    "method_definition",
    "arrow_function",
    "function_expression" ].contains kind

/-- Predicate `isTypeNode` of `wrapper.js`: node kinds treated as type definitions
(the `type_kinds`). -/
def isTypeNode (kind : String) : Bool :=
  [ "interface_declaration",
    "type_alias_declaration",
    "type_alias_statement",
    "enum_declaration",
    "struct_item",
    "trait_item",
    "type_item",
    "class_declaration" ].contains kind

/-- Function `findBodyNode` of `wrapper.js`: the first child whose kind names a body
block, if any. -/
def findBodyNode (node : TSNode) : Option TSNode :=
  node.children.find? (fun c =>
    ["statement_block", "block", "compound_statement", "body"].contains c.type)

/-- JavaScript `String.prototype.substring(a, b)`: clamps both indices to
the string and swaps them when `a > b`. -/
def jsSubstring (s : List Char) (a b : Nat) : List Char :=
  if a ≤ b then (s.take b).drop a else (s.take a).drop b

/-- The ECMAScript whitespace characters removed by
`String.prototype.trim` (ASCII whitespace plus NBSP, ZWNBSP and the line
separators; the remaining Unicode `Zs` code points never occur in the
sources considered here). -/
def isJsWhitespace (c : Char) : Bool :=
  [' ', '\t', '\n', '\r', '\x0b', '\x0c',
   '\u00A0', '\u2028', '\u2029', '\uFEFF'].contains c

/-- JavaScript `String.prototype.trim()`. -/
def jsTrim (s : List Char) : List Char :=
  ((s.dropWhile isJsWhitespace).reverse.dropWhile isJsWhitespace).reverse

/-- A splice instruction of `wrapper.js`: `{start, end, replacement}`
(`end` is a Lean keyword, hence `endPos`). -/
structure Replacement where
  start : Nat
  endPos : Nat
  replacement : List Char
deriving DecidableEq, Repr

/-- The elision marker literal of `transformStructure`. -/
def elisionMarker : List Char := "\x7b /* ... */ \x7d".toList

/-- One step of a stable insertion sort by `start`: insert `r` before the
first element with a strictly larger `start`. -/
def insertByStart (r : Replacement) : List Replacement → List Replacement
  | [] => [r]
  | x :: xs => if x.start < r.start then x :: insertByStart r xs else r :: x :: xs

/-- The call `replacements.sort((a, b) => a.start - b.start)` of `wrapper.js`:
ECMAScript `Array.prototype.sort` is stable, so this is the stable sort by
`start` ascending. -/
def sortByStart : List Replacement → List Replacement
  | [] => []
  | r :: rs => insertByStart r (sortByStart rs)

/-- The splice loop of `applyReplacements` in `wrapper.js`: starting from
`lastPos`, a replacement whose `start` lies before `lastPos` is skipped;
otherwise the source up to `start` is copied, the literal written, and the
loop resumes at `end`; the tail of the source is appended at the end. -/
def applyLoop (source : List Char) : List Replacement → Nat → List Char
  | [], lastPos => source.drop lastPos
  | r :: rs, lastPos =>
    if r.start < lastPos then
      applyLoop source rs lastPos
    else
      jsSubstring source lastPos r.start ++ r.replacement ++ applyLoop source rs r.endPos

/-- Function `applyReplacements` of `wrapper.js`: sort by start position, then apply
in a single forward pass, skipping overlapping replacements. -/
def applyReplacements (source : List Char) (replacements : List Replacement) : List Char :=
  applyLoop source (sortByStart replacements) 0

/-- The `visit` traversal of `transformStructure` in `wrapper.js`: for every
function node that has a body child, record the replacement of the body's
range by the elision marker; then visit the children in order. -/
def visitStructure : TSNode → List Replacement
  | .mk t s e cs =>
    (if isFunctionNode t then
      match findBodyNode (.mk t s e cs) with
      | some b => [⟨b.startIndex, b.endIndex, elisionMarker⟩]
      | none => []
    else []) ++ (cs.attach.map (fun c => visitStructure c.1)).flatten
decreasing_by
  have := List.sizeOf_lt_of_mem c.2
  simp [TSNode.mk.sizeOf_spec]
  omega

/-- Function `transformStructure` of `wrapper.js`. -/
def transformStructure (tree : TSNode) (source : List Char) : List Char :=
  applyReplacements source (visitStructure tree)

/-- The `visit` traversal of `transformSignatures` in `wrapper.js`: for
every function node, take the source up to the body's start (or the node's
end when it has no body), trim it, and keep it when non-empty; then visit
the children in order. -/
def visitSignatures (source : List Char) : TSNode → List (List Char)
  | .mk t s e cs =>
    (if isFunctionNode t then
      let endPos := match findBodyNode (.mk t s e cs) with
        | some b => b.startIndex
        | none => e
      let signature := jsTrim (jsSubstring source s endPos)
      if signature ≠ [] then [signature] else []
    else []) ++ (cs.attach.map (fun c => visitSignatures source c.1)).flatten
decreasing_by
  have := List.sizeOf_lt_of_mem c.2
  simp [TSNode.mk.sizeOf_spec]
  omega

/-- Function `transformSignatures` of `wrapper.js`: the collected signatures joined
with `"\n"`. -/
def transformSignatures (tree : TSNode) (source : List Char) : List Char :=
  List.intercalate ['\n'] (visitSignatures source tree)

/-- The `visit` traversal of `transformTypes` in `wrapper.js`: for every
type node, take its full source text, trim it, and keep it when non-empty;
then visit the children in order. -/
def visitTypes (source : List Char) : TSNode → List (List Char)
  | .mk t s e cs =>
    (if isTypeNode t then
      let text := jsTrim (jsSubstring source s e)
      if text ≠ [] then [text] else []
    else []) ++ (cs.attach.map (fun c => visitTypes source c.1)).flatten
decreasing_by
  have := List.sizeOf_lt_of_mem c.2
  simp [TSNode.mk.sizeOf_spec]
  omega

/-- Function `transformTypes` of `wrapper.js`: the collected type texts joined with
`"\n\n"` (a blank line between consecutive declarations). -/
def transformTypes (tree : TSNode) (source : List Char) : List Char :=
  List.intercalate ['\n', '\n'] (visitTypes source tree)

/-- The `Mode` enum of `wrapper.js`. -/
inductive Mode : Type where
  | Structure
  | Signatures
  | Types
  | Full
deriving DecidableEq, Repr

/-- Function `transformTree` of `wrapper.js`: dispatch on the mode; `Full` returns
the source unchanged. -/
def transformTree (tree : TSNode) (source : List Char) : Mode → List Char
  | .Structure => transformStructure tree source
  | .Signatures => transformSignatures tree source
  | .Types => transformTypes tree source
  | .Full => source

/-- The record returned by `transform` in `wrapper.js`.
`reductionPercentage` is computed there with JavaScript float division
`((source.length - transformed.length) / source.length) * 100`; the value
is finite exactly when `source.length ≠ 0`, and is modelled as `Option ℚ`
with `none` for the non-finite (`NaN`) outcome of dividing by zero. -/
structure TransformResult where
  content : List Char
  originalSize : Nat
  transformedSize : Nat
  reductionPercentage : Option ℚ
deriving DecidableEq, Repr

/-- Function `transform` of `wrapper.js` after parsing: build the result record from
the transformed text. -/
def transform (tree : TSNode) (source : List Char) (mode : Mode) : TransformResult :=
  let transformed := transformTree tree source mode
  { content := transformed
    originalSize := source.length
    transformedSize := transformed.length
    reductionPercentage :=
      if source.length = 0 then none
      else some ((((source.length : ℚ) - (transformed.length : ℚ)) / (source.length : ℚ)) * 100) }

/-! ## Specification-level views of the traversals

The recursive `visit` functions above mirror the JavaScript source.  The
following definitions restate what each traversal emits per node, so that
the traversals can be described as `filterMap` over the pre-order node
list. -/

/-- What `transformStructure`'s visit records at one node: for a
body-bearing kind with a body child, the body's range replaced by the
elision marker. -/
def structureRepOf (n : TSNode) : Option Replacement :=
  if isFunctionNode n.type then
    (findBodyNode n).map (fun b => ⟨b.startIndex, b.endIndex, elisionMarker⟩)
  else none

/-- What `transformSignatures`'s visit emits at one node: the trimmed text
from the node's start to its body's start (to its end when bodyless), when
that text is non-empty. -/
def signatureOf (source : List Char) (n : TSNode) : Option (List Char) :=
  if isFunctionNode n.type then
    let endPos := match findBodyNode n with
      | some b => b.startIndex
      | none => n.endIndex
    let signature := jsTrim (jsSubstring source n.startIndex endPos)
    if signature ≠ [] then some signature else none
  else none

/-- What `transformTypes`'s visit emits at one node: the trimmed text of
the node's whole range, when non-empty. -/
def typeTextOf (source : List Char) (n : TSNode) : Option (List Char) :=
  if isTypeNode n.type then
    let text := jsTrim (jsSubstring source n.startIndex n.endIndex)
    if text ≠ [] then some text else none
  else none

/-! ## The accepted sublist of the splice loop -/

/-- The sublist of replacements that `applyLoop` actually applies: a
replacement starting before the current position is skipped, any other is
accepted and the position moves to its end. -/
def acceptedLoop : List Replacement → Nat → List Replacement
  | [], _ => []
  | r :: rs, lastPos =>
    if r.start < lastPos then acceptedLoop rs lastPos else r :: acceptedLoop rs r.endPos

/-- The replacements `applyReplacements` actually applies to the source. -/
def acceptedReps (replacements : List Replacement) : List Replacement :=
  acceptedLoop (sortByStart replacements) 0

/-- Alternating splice of a replacement list: copy the source between
consecutive replacements verbatim, write each literal in place of its
range, and append the source tail. -/
def spliceSegments (source : List Char) : List Replacement → Nat → List Char
  | [], lastPos => source.drop lastPos
  | r :: rs, lastPos =>
    jsSubstring source lastPos r.start ++ r.replacement ++ spliceSegments source rs r.endPos

/-! ## The splice writer as claim C4 words it -/

/-- Insertion step for the ordering stated by the specification text:
`start` ascending, `end` descending for equal starts. -/
def insertSpecOrder (r : Replacement) : List Replacement → List Replacement
  | [] => [r]
  | x :: xs =>
    if x.start < r.start ∨ (x.start = r.start ∧ r.endPos ≤ x.endPos) then
      x :: insertSpecOrder r xs
    else r :: x :: xs

/-- Sort by `start` ascending with `end` descending for equal starts
(outer-first), as the specification's splice-writer step 1 words it. -/
def sortSpecOrder : List Replacement → List Replacement
  | [] => []
  | r :: rs => insertSpecOrder r (sortSpecOrder rs)

/-- The splice writer exactly as claim C4 and specification §4.C5 word it:
sort `start` ascending / `end` descending, then merge by dropping any later
replacement starting before the last accepted end, then splice.  To be
compared with `applyReplacements`, which sorts by `start` only. -/
def spliceWriterSpec (source : List Char) (replacements : List Replacement) : List Char :=
  spliceSegments source (acceptedLoop (sortSpecOrder replacements) 0) 0

/-! ## Outputs as the claims word them -/

/-- Signatures output as claim C5 words it: for each signature-kind node,
the raw substring `[node.start, body.start)` (resp. `[node.start,
node.end)` without a body) followed by a newline, and nothing else. -/
def signaturesClaimed (tree : TSNode) (source : List Char) : List Char :=
  ((TSNode.preorder tree).filterMap (fun n =>
    if isFunctionNode n.type then
      some (jsSubstring source n.startIndex
        (match findBodyNode n with
          | some b => b.startIndex
          | none => n.endIndex) ++ ['\n'])
    else none)).flatten

/-- Types output as claim C6 words it: the verbatim substring
`[node.start, node.end)` of each type-kind node, blank-line separated. -/
def typesClaimed (tree : TSNode) (source : List Char) : List Char :=
  List.intercalate ['\n', '\n'] ((TSNode.preorder tree).filterMap (fun n =>
    if isTypeNode n.type then some (jsSubstring source n.startIndex n.endIndex) else none))

/-! ## Safety gate (modelled)

The safety caps live in the Rust core (`rskim-core`), whose implementation
is not among the sources here; the repository's `SECURITY.md` and
`docs/architecture.md` document them and `wrapper.js` predates them. -/

/-- Modelled from the spec: the 50 MiB source-size cap of the Safety Gate
(§4.C2), enforced before parsing. -/
def MAX_FILE_SIZE : Nat := 50 * 1024 * 1024

/-- Modelled from the spec: the 100,000 AST-node cap of the Safety Gate
(§4.C2), enforced during parsing. -/
def MAX_AST_NODES : Nat := 100000

/-- Modelled from the spec: the 500-level traversal depth cap of the Safety
Gate (§4.C2). -/
def MAX_RECURSION_DEPTH : Nat := 500

/-- Modelled from the spec: the named errors of the safety envelope (§7)
relevant to the caps. -/
inductive TransformError : Type where
  | inputTooLarge
  | tooManyNodes
  | maxDepthExceeded
deriving DecidableEq, Repr

/-- Modelled from the spec: `transform` guarded by the Safety Gate (§4.C2)
of the Rust core, absent from the sources here — byte size checked before
parsing, then node count, then traversal depth; only then does the mode
transformation run and produce output. -/
def transformGuarded (tree : TSNode) (source : List Char) (mode : Mode) :
    Except TransformError (List Char) :=
  if source.length > MAX_FILE_SIZE then .error .inputTooLarge
  else if tree.nodeCount > MAX_AST_NODES then .error .tooManyNodes
  else if tree.depth > MAX_RECURSION_DEPTH then .error .maxDepthExceeded
  else .ok (transformTree tree source mode)

/-- A chain tree of the given height above a leaf, to exercise the caps. -/
def chainNode : Nat → TSNode
  | 0 => .mk "leaf" 0 0 []
  | n + 1 => .mk "node" 0 0 [chainNode n]

/-! ## Markdown (modelled)

Markdown support also lives only in the Rust core; `wrapper.js`'s language
enum has no Markdown entry.  Modelled from the spec (§4.C4 Markdown). -/

/-- Modelled from the spec: a Markdown heading node as the AST provider
reports it — a level attribute (1–6) and the heading text. -/
structure MdHeading where
  level : Nat
  text : List Char
deriving DecidableEq, Repr

/-- Modelled from the spec: a heading rendered as `"#" * level + " " +
heading_text`. -/
def renderHeading (h : MdHeading) : List Char :=
  List.replicate h.level '#' ++ ' ' :: h.text

/-- Modelled from the spec: the Structure-mode Markdown traversal — walk
the headings in source order and emit those of level at most 3. -/
def markdownStructureLines : List MdHeading → List (List Char)
  | [] => []
  | h :: hs =>
    if h.level ≤ 3 then renderHeading h :: markdownStructureLines hs
    else markdownStructureLines hs

/-- Modelled from the spec: Structure-mode Markdown output, the emitted
heading lines joined by newlines. -/
def markdownStructure (headings : List MdHeading) : List Char :=
  List.intercalate ['\n'] (markdownStructureLines headings)

/-! ## Concrete scenario data

Sources with the syntax trees tree-sitter produces for them (node kinds,
ranges and child lists as the grammars report them). -/

/-- Scenario S1 source: `export function add(a: number, b: number): number
\x7b return a + b; \x7d`. -/
def addSource : List Char :=
  "export function add(a: number, b: number): number \x7b return a + b; \x7d".toList

def addBody : TSNode := .mk "statement_block" 50 67 [.mk "return_statement" 52 65 []]

def addFn : TSNode :=
  .mk "function_declaration" 7 67
    [.mk "identifier" 16 19 [], .mk "formal_parameters" 19 41 [],
     .mk "return_type" 41 49 [], addBody]

def addTree : TSNode := .mk "program" 0 67 [.mk "export_statement" 0 67 [addFn]]

/-- Scenario S1 expected output. -/
def addExpected : List Char :=
  "export function add(a: number, b: number): number \x7b /* ... */ \x7d".toList

/-- Scenario S3 source: nested functions. -/
def nestedSource : List Char :=
  "function outer() \x7b function inner() \x7b return 1; \x7d return inner(); \x7d".toList

def innerBody : TSNode := .mk "statement_block" 36 49 [.mk "return_statement" 38 47 []]

def innerFn : TSNode :=
  .mk "function_declaration" 19 49
    [.mk "identifier" 28 33 [], .mk "formal_parameters" 33 35 [], innerBody]

def outerBody : TSNode := .mk "statement_block" 17 67 [innerFn, .mk "return_statement" 50 65 []]

def nestedTree : TSNode :=
  .mk "program" 0 67
    [.mk "function_declaration" 0 67
      [.mk "identifier" 9 14 [], .mk "formal_parameters" 14 16 [], outerBody]]

/-- Scenario S3 expected output: one marker, at the outermost body. -/
def nestedExpected : List Char := "function outer() \x7b /* ... */ \x7d".toList

/-- The two body replacements the S3 traversal records. -/
def outerRep : Replacement := ⟨17, 67, elisionMarker⟩

def innerRep : Replacement := ⟨36, 49, elisionMarker⟩

/-- A function whose signature substring `[node.start, body.start)` ends in
a space, so that the wrapper's `trim` is observable. -/
def sigSource : List Char := "function f() \x7b return 1; \x7d".toList

def sigBody : TSNode := .mk "statement_block" 13 26 [.mk "return_statement" 15 24 []]

def sigFn : TSNode :=
  .mk "function_declaration" 0 26
    [.mk "identifier" 9 10 [], .mk "formal_parameters" 10 12 [], sigBody]

def sigTree : TSNode := .mk "program" 0 26 [sigFn]

/-- Signatures-mode example with a bodiless declaration and a bodied one. -/
def sig2Source : List Char := "function g(): void;\nfunction f() \x7b\x7d".toList

def sig2G : TSNode :=
  .mk "function_declaration" 0 19
    [.mk "identifier" 9 10 [], .mk "formal_parameters" 10 12 [],
     .mk "return_type" 12 18 []]

def sig2F : TSNode :=
  .mk "function_declaration" 20 35
    [.mk "identifier" 29 30 [], .mk "formal_parameters" 30 32 [],
     .mk "statement_block" 33 35 []]

def sig2Tree : TSNode := .mk "program" 0 35 [sig2G, sig2F]

/-- Scenario S5-like source: one interface and one type alias. -/
def typesSource : List Char := "interface U \x7b id: string \x7d\ntype R = number;".toList

def ifaceNode : TSNode :=
  .mk "interface_declaration" 0 26
    [.mk "type_identifier" 10 11 [], .mk "interface_body" 12 26 []]

def aliasNode : TSNode := .mk "type_alias_declaration" 27 43 [.mk "type_identifier" 32 33 []]

def typesTree : TSNode := .mk "program" 0 43 [ifaceNode, aliasNode]

/-- Expected Types-mode output: the two declarations, blank-line apart. -/
def typesExpected : List Char :=
  ("interface U \x7b id: string \x7d" ++ "\n\n" ++ "type R = number;").toList

/-- Source for the splice-order counterexample. -/
def overlapSource : List Char := "abcdefgh".toList

/-- Two same-start nested replacements, inner first — the traversal order a
DFS cannot produce but an arbitrary replacement set can. -/
def overlapReps : List Replacement := [⟨0, 2, ['X']⟩, ⟨0, 5, ['Y']⟩]

/-- Scenario S6 heading list: H1–H5. -/
def mdHeadings : List MdHeading :=
  [⟨1, "Title".toList⟩, ⟨2, "Section".toList⟩, ⟨3, "Sub".toList⟩,
   ⟨4, "Deep".toList⟩, ⟨5, "Deeper".toList⟩]

/-- Scenario S6 expected output: only H1–H3, in source order. -/
def mdExpected : List Char := "# Title\n## Section\n### Sub".toList

/-! ## General lemmas -/

theorem filterMap_cons_toList (f : α → Option β) (a : α) (l : List α) :
    List.filterMap f (a :: l) = (f a).toList ++ List.filterMap f l := by
  cases h : f a <;> simp [h]

theorem structureHead (t : String) (s e : Nat) (cs : List TSNode) :
    (if isFunctionNode t then
      match findBodyNode (TSNode.mk t s e cs) with
      | some b => [(⟨b.startIndex, b.endIndex, elisionMarker⟩ : Replacement)]
      | none => []
    else []) = (structureRepOf (TSNode.mk t s e cs)).toList := by
  unfold structureRepOf
  simp only [TSNode.type]
  split
  · cases findBodyNode (TSNode.mk t s e cs) <;> simp
  · simp

theorem signatureHead (source : List Char) (t : String) (s e : Nat) (cs : List TSNode) :
    (if isFunctionNode t then
      let endPos := match findBodyNode (TSNode.mk t s e cs) with
        | some b => b.startIndex
        | none => e
      let signature := jsTrim (jsSubstring source s endPos)
      if signature ≠ [] then [signature] else []
    else []) = (signatureOf source (TSNode.mk t s e cs)).toList := by
  unfold signatureOf
  simp only [TSNode.type, TSNode.startIndex, TSNode.endIndex]
  split
  · cases findBodyNode (TSNode.mk t s e cs) <;> (dsimp only [TSNode.startIndex]; split <;> simp_all)
  · simp

theorem typeHead (source : List Char) (t : String) (s e : Nat) (cs : List TSNode) :
    (if isTypeNode t then
      let text := jsTrim (jsSubstring source s e)
      if text ≠ [] then [text] else []
    else []) = (typeTextOf source (TSNode.mk t s e cs)).toList := by
  unfold typeTextOf
  simp only [TSNode.type, TSNode.startIndex, TSNode.endIndex]
  split
  · split <;> simp_all
  · simp

theorem visitStructure_mk (t : String) (s e : Nat) (cs : List TSNode) :
    visitStructure (TSNode.mk t s e cs) =
      (if isFunctionNode t then
        match findBodyNode (TSNode.mk t s e cs) with
        | some b => [(⟨b.startIndex, b.endIndex, elisionMarker⟩ : Replacement)]
        | none => []
      else []) ++ (cs.map visitStructure).flatten := by
  rw [visitStructure, List.attach_map_val]

theorem visitSignatures_mk (source : List Char) (t : String) (s e : Nat) (cs : List TSNode) :
    visitSignatures source (TSNode.mk t s e cs) =
      (if isFunctionNode t then
        let endPos := match findBodyNode (TSNode.mk t s e cs) with
          | some b => b.startIndex
          | none => e
        let signature := jsTrim (jsSubstring source s endPos)
        if signature ≠ [] then [signature] else []
      else []) ++ (cs.map (visitSignatures source)).flatten := by
  rw [visitSignatures, List.attach_map_val]

theorem visitTypes_mk (source : List Char) (t : String) (s e : Nat) (cs : List TSNode) :
    visitTypes source (TSNode.mk t s e cs) =
      (if isTypeNode t then
        let text := jsTrim (jsSubstring source s e)
        if text ≠ [] then [text] else []
      else []) ++ (cs.map (visitTypes source)).flatten := by
  rw [visitTypes, List.attach_map_val]

theorem preorder_mk (t : String) (s e : Nat) (cs : List TSNode) :
    TSNode.preorder (TSNode.mk t s e cs) =
      TSNode.mk t s e cs :: (cs.map TSNode.preorder).flatten := by
  rw [TSNode.preorder, List.attach_map_val]

theorem self_mem_preorder (n : TSNode) : n ∈ TSNode.preorder n := by
  cases n with
  | mk t s e cs => rw [preorder_mk]; exact List.mem_cons_self _ _

theorem mem_preorder_step (t : String) (s e : Nat) (cs : List TSNode) (c : TSNode)
    (hc : c ∈ cs) {x : TSNode} (hx : x ∈ TSNode.preorder c) :
    x ∈ TSNode.preorder (TSNode.mk t s e cs) := by
  rw [preorder_mk]
  exact List.mem_cons_of_mem _ (List.mem_flatten.2 ⟨TSNode.preorder c, List.mem_map_of_mem _ hc, hx⟩)

theorem applyLoop_eq_splice (source : List Char) :
    ∀ (l : List Replacement) (p : Nat),
      applyLoop source l p = spliceSegments source (acceptedLoop l p) p := by
  intro l
  induction l with
  | nil => intro p; rfl
  | cons r rs ih =>
    intro p
    rw [applyLoop, acceptedLoop]
    by_cases h : r.start < p
    · simp only [if_pos h]; exact ih p
    · simp only [if_neg h, spliceSegments]; rw [ih r.endPos]

theorem mem_insertByStart {x r : Replacement} : ∀ {l : List Replacement},
    x ∈ insertByStart r l ↔ x = r ∨ x ∈ l := by
  intro l
  induction l with
  | nil => simp [insertByStart]
  | cons y ys ih =>
    rw [insertByStart]
    split
    · simp only [List.mem_cons, ih]
      tauto
    · simp only [List.mem_cons]

theorem mem_sortByStart {x : Replacement} : ∀ {l : List Replacement},
    x ∈ sortByStart l ↔ x ∈ l := by
  intro l
  induction l with
  | nil => simp [sortByStart]
  | cons r rs ih =>
    rw [sortByStart, mem_insertByStart]
    simp only [List.mem_cons, ih]

theorem insertByStart_sorted (r : Replacement) : ∀ {l : List Replacement},
    List.Pairwise (fun a b => a.start ≤ b.start) l →
    List.Pairwise (fun a b => a.start ≤ b.start) (insertByStart r l) := by
  intro l
  induction l with
  | nil => intro _; simp [insertByStart]
  | cons x xs ih =>
    intro h
    rw [List.pairwise_cons] at h
    rw [insertByStart]
    split
    · rw [List.pairwise_cons]
      refine ⟨fun y hy => ?_, ih h.2⟩
      rcases mem_insertByStart.1 hy with hyr | hyx
      · subst hyr; omega
      · exact h.1 y hyx
    · rw [List.pairwise_cons]
      refine ⟨fun y hy => ?_, List.pairwise_cons.2 h⟩
      rcases List.mem_cons.1 hy with hyx | hyxs
      · subst hyx; omega
      · have := h.1 y hyxs; omega

theorem sortByStart_sorted : ∀ (l : List Replacement),
    List.Pairwise (fun a b => a.start ≤ b.start) (sortByStart l) := by
  intro l
  induction l with
  | nil => simp [sortByStart]
  | cons r rs ih => exact insertByStart_sorted r ih

theorem acceptedLoop_start_ge : ∀ (l : List Replacement) (p : Nat),
    (∀ r ∈ l, r.start ≤ r.endPos) →
    ∀ x ∈ acceptedLoop l p, p ≤ x.start := by
  intro l
  induction l with
  | nil => intro p _ x hx; simp [acceptedLoop] at hx
  | cons r rs ih =>
    intro p h x hx
    rw [acceptedLoop] at hx
    have hr : r.start ≤ r.endPos := h r (List.mem_cons_self r rs)
    have htl : ∀ a ∈ rs, a.start ≤ a.endPos := fun a ha => h a (List.mem_cons_of_mem r ha)
    by_cases hlt : r.start < p
    · rw [if_pos hlt] at hx
      exact ih p htl x hx
    · rw [if_neg hlt] at hx
      rcases List.mem_cons.1 hx with hxr | hxm
      · subst hxr; omega
      · have := ih r.endPos htl x hxm; omega

theorem acceptedLoop_pairwise : ∀ (l : List Replacement) (p : Nat),
    (∀ r ∈ l, r.start ≤ r.endPos) →
    List.Pairwise (fun a b => a.endPos ≤ b.start) (acceptedLoop l p) := by
  intro l
  induction l with
  | nil => intro p _; simp [acceptedLoop]
  | cons r rs ih =>
    intro p h
    have htl : ∀ a ∈ rs, a.start ≤ a.endPos := fun a ha => h a (List.mem_cons_of_mem r ha)
    rw [acceptedLoop]
    split
    · exact ih p htl
    · exact List.pairwise_cons.2
        ⟨fun y hy => acceptedLoop_start_ge rs r.endPos htl y hy, ih r.endPos htl⟩

theorem acceptedReps_pairwise (rs : List Replacement)
    (h : ∀ r ∈ rs, r.start ≤ r.endPos) :
    List.Pairwise (fun a b => a.endPos ≤ b.start) (acceptedReps rs) :=
  acceptedLoop_pairwise (sortByStart rs) 0
    (fun r hr => h r (mem_sortByStart.1 hr))

theorem nodeCount_mk (t : String) (s e : Nat) (cs : List TSNode) :
    (TSNode.mk t s e cs).nodeCount = 1 + (cs.map TSNode.nodeCount).sum := by
  rw [TSNode.nodeCount, List.attach_map_val]

theorem depth_mk (t : String) (s e : Nat) (cs : List TSNode) :
    (TSNode.mk t s e cs).depth = 1 + (cs.map TSNode.depth).foldr max 0 := by
  rw [TSNode.depth, List.attach_map_val]

theorem chain_nodeCount : ∀ n : Nat, (chainNode n).nodeCount = n + 1 := by
  intro n
  induction n with
  | zero => rw [chainNode, nodeCount_mk]; rfl
  | succ k ih => rw [chainNode, nodeCount_mk]; simp [ih]; omega

theorem chain_depth : ∀ n : Nat, (chainNode n).depth = n + 1 := by
  intro n
  induction n with
  | zero => rw [chainNode, depth_mk]; rfl
  | succ k ih => rw [chainNode, depth_mk]; simp [ih]; omega

theorem markdownStructureLines_eq_filter : ∀ hs : List MdHeading,
    markdownStructureLines hs = (hs.filter (fun h => h.level ≤ 3)).map renderHeading := by
  intro hs
  induction hs with
  | nil => rfl
  | cons h t ih =>
    rw [markdownStructureLines, List.filter_cons]
    by_cases hl : h.level ≤ 3
    · simp [hl, ih]
    · simp [hl, ih]

theorem visitStructure_eq_preorder : ∀ n : TSNode,
    visitStructure n = (TSNode.preorder n).filterMap structureRepOf := by
  refine TSNode.ind_mem (fun t s e cs ih => ?_)
  rw [visitStructure, TSNode.preorder, List.attach_map_val, List.attach_map_val,
    List.map_congr_left ih, structureHead, filterMap_cons_toList]
  simp [List.filterMap_flatten, List.map_map, Function.comp_def]

theorem visitSignatures_eq_preorder (source : List Char) : ∀ n : TSNode,
    visitSignatures source n = (TSNode.preorder n).filterMap (signatureOf source) := by
  refine TSNode.ind_mem (fun t s e cs ih => ?_)
  rw [visitSignatures, TSNode.preorder, List.attach_map_val, List.attach_map_val,
    List.map_congr_left ih, signatureHead, filterMap_cons_toList]
  simp [List.filterMap_flatten, List.map_map, Function.comp_def]

theorem visitTypes_eq_preorder (source : List Char) : ∀ n : TSNode,
    visitTypes source n = (TSNode.preorder n).filterMap (typeTextOf source) := by
  refine TSNode.ind_mem (fun t s e cs ih => ?_)
  rw [visitTypes, TSNode.preorder, List.attach_map_val, List.attach_map_val,
    List.map_congr_left ih, typeHead source t s e cs, filterMap_cons_toList]
  simp [List.filterMap_flatten, List.map_map, Function.comp_def]

/-! ## The claims -/

/-- Claim C1: for every source string and every supported language — hence
for every tree its grammar produces — `transform` in `Full` mode returns
the source unchanged, byte for byte. -/
theorem full_mode_identity (tree : TSNode) (source : List Char) :
    transformTree tree source Mode.Full = source
    ∧ (transform tree source Mode.Full).content = source :=
  ⟨rfl, rfl⟩

/-- Claim C2: in Structure mode every body-bearing node with a body child
contributes the replacement of the body's range by the elision marker to
the replacement set; the output is the alternating splice of the applied
set, so all text outside the applied ranges appears verbatim; and the S1
TypeScript scenario produces exactly the expected output. -/
theorem structure_mode_replacement_set :
    (∀ (tree n b : TSNode), n ∈ TSNode.preorder tree →
      isFunctionNode n.type = true → findBodyNode n = some b →
      (⟨b.startIndex, b.endIndex, elisionMarker⟩ : Replacement) ∈ visitStructure tree)
    ∧ (∀ (source : List Char) (rs : List Replacement),
      applyReplacements source rs = spliceSegments source (acceptedReps rs) 0)
    ∧ transformStructure addTree addSource = addExpected := by
  refine ⟨fun tree n b hn hfn hfb => ?_, fun source rs => ?_, ?_⟩
  · rw [visitStructure_eq_preorder]
    exact List.mem_filterMap.mpr ⟨n, hn, by simp [structureRepOf, hfn, hfb]⟩
  · rw [applyReplacements, applyLoop_eq_splice, acceptedReps]
  · have hv : visitStructure addTree = [(⟨50, 67, elisionMarker⟩ : Replacement)] := by
      simp [addTree, addFn, addBody, visitStructure_mk, isFunctionNode, findBodyNode,
        TSNode.type, TSNode.children, TSNode.startIndex, TSNode.endIndex]
    rw [transformStructure, hv]
    decide

theorem structure_mode_replacement_set_witness :
    addFn ∈ TSNode.preorder addTree
    ∧ isFunctionNode addFn.type = true
    ∧ findBodyNode addFn = some addBody
    ∧ (⟨addBody.startIndex, addBody.endIndex, elisionMarker⟩ : Replacement) ∈
        visitStructure addTree := by
  have hmem : addFn ∈ TSNode.preorder addTree := by
    show addFn ∈ TSNode.preorder
      (TSNode.mk "program" 0 67 [TSNode.mk "export_statement" 0 67 [addFn]])
    exact mem_preorder_step _ _ _ _ _ (List.mem_cons_self _ _)
      (mem_preorder_step _ _ _ _ _ (List.mem_cons_self _ _) (self_mem_preorder addFn))
  exact ⟨hmem, rfl, rfl, structure_mode_replacement_set.1 addTree addFn addBody hmem rfl rfl⟩

/-- Claim C3: when two body replacements nest properly, the merge rule
never applies both — if the outer one is applied, the inner one is dropped;
on the S3 nested-function scenario the traversal records both bodies, the
merge keeps exactly the outermost, and the output carries exactly one
elision marker, at the outermost body. -/
theorem nested_bodies_single_marker :
    (∀ (rs : List Replacement) (ro ri : Replacement),
      (∀ r ∈ rs, r.start ≤ r.endPos) →
      ro.start ≤ ri.start → ri.endPos ≤ ro.endPos → ri.start < ri.endPos →
      (ro.start < ri.start ∨ ri.endPos < ro.endPos) →
      ro ∈ acceptedReps rs → ri ∉ acceptedReps rs)
    ∧ visitStructure nestedTree = [outerRep, innerRep]
    ∧ acceptedReps [outerRep, innerRep] = [outerRep]
    ∧ transformStructure nestedTree nestedSource = nestedExpected := by
  have hv : visitStructure nestedTree = [outerRep, innerRep] := by
    simp [nestedTree, innerFn, innerBody, outerBody, outerRep, innerRep, visitStructure_mk,
      isFunctionNode, findBodyNode, TSNode.type, TSNode.children, TSNode.startIndex,
      TSNode.endIndex]
  refine ⟨fun rs ro ri h hs1 hs2 hlt hproper hro hri => ?_, hv, by decide, ?_⟩
  · have hp : List.Pairwise (fun a b : Replacement => a.endPos ≤ b.start ∨ b.endPos ≤ a.start)
        (acceptedReps rs) :=
      (acceptedReps_pairwise rs h).imp (fun hab => Or.inl hab)
    have hsym : Symmetric (fun a b : Replacement => a.endPos ≤ b.start ∨ b.endPos ≤ a.start) :=
      fun a b hab => hab.symm
    by_cases heq : ro = ri
    · subst heq; rcases hproper with h' | h' <;> omega
    · rcases hp.forall hsym hro hri heq with hcase | hcase <;> omega
  · rw [transformStructure, hv]
    decide

theorem nested_bodies_single_marker_witness :
    (∀ r ∈ [outerRep, innerRep], r.start ≤ r.endPos)
    ∧ outerRep ∈ acceptedReps [outerRep, innerRep]
    ∧ innerRep ∉ acceptedReps [outerRep, innerRep] :=
  ⟨by decide, by decide,
    nested_bodies_single_marker.1 [outerRep, innerRep] outerRep innerRep
      (by decide) (by decide) (by decide) (by decide) (by decide) (by decide)⟩

/-- Claim C4, counterexample: the splice writer does not sort `end`
descending for equal starts.  On two same-start replacements listed
inner-first, the code's stable sort by `start` alone keeps the inner one
first and applies it, while the ordering the claim words (outer-first for
equal starts) would apply the outer one. -/
theorem splice_sort_claim_counterexample :
    applyReplacements overlapSource overlapReps ≠ spliceWriterSpec overlapSource overlapReps := by
  decide

/-- Claim C4, amended: replacements are sorted stably by `start` ascending
only (for equal starts the insertion order is kept), then every later
replacement whose start is less than the end of the last accepted one is
dropped; for replacements with `start ≤ end` the applied set is pairwise
non-overlapping, and the output is the alternating splice of the accepted
set. -/
theorem splice_applied_nonoverlapping (rs : List Replacement)
    (h : ∀ r ∈ rs, r.start ≤ r.endPos) :
    List.Pairwise (fun a b => a.start ≤ b.start) (sortByStart rs)
    ∧ List.Pairwise (fun a b => a.endPos ≤ b.start) (acceptedReps rs)
    ∧ ∀ source, applyReplacements source rs = spliceSegments source (acceptedReps rs) 0 := by
  refine ⟨sortByStart_sorted rs, acceptedReps_pairwise rs h, fun source => ?_⟩
  rw [applyReplacements, applyLoop_eq_splice, acceptedReps]

theorem splice_applied_nonoverlapping_witness :
    (∀ r ∈ overlapReps, r.start ≤ r.endPos)
    ∧ List.Pairwise (fun a b => a.endPos ≤ b.start) (acceptedReps overlapReps) :=
  ⟨by decide, (splice_applied_nonoverlapping overlapReps (by decide)).2.1⟩

/-- Claim C5, counterexample: Signatures-mode output is not the raw
substrings each followed by a newline — the wrapper trims each signature
(dropping the space before the body brace) and joins with single newlines
(no newline after the last). -/
theorem signatures_claim_counterexample :
    transformSignatures sigTree sigSource ≠ signaturesClaimed sigTree sigSource := by
  have hv : visitSignatures sigSource sigTree = ["function f()".toList] := by
    simp only [sigTree, sigFn, sigBody, visitSignatures_mk, List.map_cons, List.map_nil,
      List.flatten_cons, List.flatten_nil, List.cons_append, List.nil_append, List.append_nil]
    decide
  have hp : TSNode.preorder sigTree =
      [sigTree, sigFn, TSNode.mk "identifier" 9 10 [], TSNode.mk "formal_parameters" 10 12 [],
       sigBody, TSNode.mk "return_statement" 15 24 []] := by
    simp only [sigTree, sigFn, sigBody, preorder_mk, List.map_cons, List.map_nil,
      List.flatten_cons, List.flatten_nil, List.cons_append, List.nil_append, List.append_nil]
  rw [transformSignatures, hv, signaturesClaimed, hp]
  decide

/-- Claim C5, amended: Signatures-mode output consists of, for each
signature-kind node in pre-order, the substring `[node.start, body.start)`
(resp. `[node.start, node.end)` when the node has no body) with surrounding
whitespace trimmed, omitted when it trims to empty, consecutive signatures
being joined by single newlines with no trailing newline; a bodiless
declaration is emitted whole. -/
theorem signatures_trimmed_joined :
    (∀ (tree : TSNode) (source : List Char),
      transformSignatures tree source =
        List.intercalate ['\n'] ((TSNode.preorder tree).filterMap (signatureOf source)))
    ∧ transformSignatures sig2Tree sig2Source =
        ("function g(): void;" ++ "\n" ++ "function f()").toList := by
  constructor
  · intro tree source
    rw [transformSignatures, visitSignatures_eq_preorder]
  · have hv : visitSignatures sig2Source sig2Tree =
        ["function g(): void;".toList, "function f()".toList] := by
      simp only [sig2Tree, sig2G, sig2F, visitSignatures_mk, List.map_cons, List.map_nil,
        List.flatten_cons, List.flatten_nil, List.cons_append, List.nil_append, List.append_nil]
      decide
    rw [transformSignatures, hv]
    decide

/-- Claim C6: Types-mode output consists of the substring `[node.start,
node.end)` of each type-kind node in pre-order, blank-line separated — for
trees whose type nodes carry no surrounding whitespace inside their ranges
(as tree-sitter spans never do), so that the wrapper's trim is the
identity; the interface/type-alias scenario yields the two declarations
separated by one blank line. -/
theorem types_mode_verbatim :
    (∀ (tree : TSNode) (source : List Char),
      (∀ n ∈ TSNode.preorder tree, isTypeNode n.type = true →
        jsTrim (jsSubstring source n.startIndex n.endIndex) =
            jsSubstring source n.startIndex n.endIndex
        ∧ jsSubstring source n.startIndex n.endIndex ≠ []) →
      transformTypes tree source = typesClaimed tree source)
    ∧ transformTypes typesTree typesSource = typesExpected := by
  constructor
  · intro tree source h
    rw [transformTypes, visitTypes_eq_preorder, typesClaimed]
    congr 1
    refine List.filterMap_congr (fun n hn => ?_)
    simp only [typeTextOf]
    cases hbt : isTypeNode n.type with
    | false => simp [hbt]
    | true =>
      have hts := h n hn hbt
      simp [hbt, hts.1, hts.2]
  · have hv : visitTypes typesSource typesTree =
        ["interface U \x7b id: string \x7d".toList, "type R = number;".toList] := by
      simp only [typesTree, ifaceNode, aliasNode, visitTypes_mk, List.map_cons, List.map_nil,
        List.flatten_cons, List.flatten_nil, List.cons_append, List.nil_append, List.append_nil]
      decide
    rw [transformTypes, hv]
    decide

theorem types_mode_verbatim_witness :
    (∀ n ∈ TSNode.preorder typesTree, isTypeNode n.type = true →
      jsTrim (jsSubstring typesSource n.startIndex n.endIndex) =
          jsSubstring typesSource n.startIndex n.endIndex
      ∧ jsSubstring typesSource n.startIndex n.endIndex ≠ [])
    ∧ transformTypes typesTree typesSource = typesClaimed typesTree typesSource := by
  have hp : TSNode.preorder typesTree =
      [typesTree, ifaceNode, TSNode.mk "type_identifier" 10 11 [],
       TSNode.mk "interface_body" 12 26 [], aliasNode, TSNode.mk "type_identifier" 32 33 []] := by
    simp only [typesTree, ifaceNode, aliasNode, preorder_mk, List.map_cons, List.map_nil,
      List.flatten_cons, List.flatten_nil, List.cons_append, List.nil_append, List.append_nil]
  have hh : ∀ n ∈ TSNode.preorder typesTree, isTypeNode n.type = true →
      jsTrim (jsSubstring typesSource n.startIndex n.endIndex) =
          jsSubstring typesSource n.startIndex n.endIndex
      ∧ jsSubstring typesSource n.startIndex n.endIndex ≠ [] := by
    rw [hp]; decide
  exact ⟨hh, types_mode_verbatim.1 typesTree typesSource hh⟩

/-- Claim C7 (the safety gate is modelled from the spec, its implementation
living in the Rust core absent from these sources): a source beyond 50 MiB
fails with `input-too-large`, a tree beyond 100,000 nodes fails with
`too-many-nodes`, a traversal beyond depth 500 fails with
`max-depth-exceeded`, and an error result carries no output. -/
theorem safety_caps_named_errors (tree : TSNode) (source : List Char) (mode : Mode) :
    (source.length > MAX_FILE_SIZE →
      transformGuarded tree source mode = .error .inputTooLarge)
    ∧ (source.length ≤ MAX_FILE_SIZE → tree.nodeCount > MAX_AST_NODES →
      transformGuarded tree source mode = .error .tooManyNodes)
    ∧ (source.length ≤ MAX_FILE_SIZE → tree.nodeCount ≤ MAX_AST_NODES →
      tree.depth > MAX_RECURSION_DEPTH →
      transformGuarded tree source mode = .error .maxDepthExceeded)
    ∧ (∀ err, transformGuarded tree source mode = Except.error err →
      ∀ output, transformGuarded tree source mode ≠ Except.ok output) := by
  refine ⟨fun h1 => ?_, fun h1 h2 => ?_, fun h1 h2 h3 => ?_, fun err he output => ?_⟩
  · rw [transformGuarded, if_pos h1]
  · rw [transformGuarded, if_neg (Nat.not_lt.mpr h1), if_pos h2]
  · rw [transformGuarded, if_neg (Nat.not_lt.mpr h1), if_neg (Nat.not_lt.mpr h2), if_pos h3]
  · rw [he]; simp

theorem safety_caps_named_errors_witness :
    (List.replicate 52428801 'a').length > MAX_FILE_SIZE
    ∧ transformGuarded (chainNode 0) (List.replicate 52428801 'a') Mode.Full =
        Except.error TransformError.inputTooLarge
    ∧ (chainNode 100001).nodeCount > MAX_AST_NODES
    ∧ transformGuarded (chainNode 100001) [] Mode.Full =
        Except.error TransformError.tooManyNodes
    ∧ (chainNode 501).depth > MAX_RECURSION_DEPTH
    ∧ transformGuarded (chainNode 501) [] Mode.Full =
        Except.error TransformError.maxDepthExceeded := by
  have hlen : (List.replicate 52428801 'a').length > MAX_FILE_SIZE := by
    rw [List.length_replicate, MAX_FILE_SIZE]; norm_num
  have hsz : ([] : List Char).length ≤ MAX_FILE_SIZE := by
    rw [List.length_nil, MAX_FILE_SIZE]; norm_num
  have hn : (chainNode 100001).nodeCount > MAX_AST_NODES := by
    rw [chain_nodeCount, MAX_AST_NODES]; norm_num
  have hn' : (chainNode 501).nodeCount ≤ MAX_AST_NODES := by
    rw [chain_nodeCount, MAX_AST_NODES]; norm_num
  have hd : (chainNode 501).depth > MAX_RECURSION_DEPTH := by
    rw [chain_depth, MAX_RECURSION_DEPTH]; norm_num
  exact ⟨hlen,
    (safety_caps_named_errors (chainNode 0) (List.replicate 52428801 'a') Mode.Full).1 hlen,
    hn,
    (safety_caps_named_errors (chainNode 100001) [] Mode.Full).2.1 hsz hn,
    hd,
    (safety_caps_named_errors (chainNode 501) [] Mode.Full).2.2.1 hsz hn' hd⟩

/-- Claim C8 (Markdown support is modelled from the spec, its
implementation living in the Rust core absent from these sources):
Structure mode over a Markdown heading list emits exactly the headings of
level at most 3, in source order, each rendered as `#` repeated `level`
times, a space, and the heading text; levels 4–6 are omitted.  The H1–H5
scenario evaluates accordingly. -/
theorem markdown_structure_headings :
    (∀ hs : List MdHeading,
      markdownStructure hs =
        List.intercalate ['\n'] ((hs.filter (fun h => h.level ≤ 3)).map renderHeading))
    ∧ markdownStructure mdHeadings = mdExpected := by
  constructor
  · intro hs
    rw [markdownStructure, markdownStructureLines_eq_filter]
  · decide

/-- Claim C9: the transformation is deterministic — two calls of
`transform` with identical tree, source and mode yield the same result
record and in particular byte-identical content. -/
theorem transform_deterministic (tree : TSNode) (source : List Char) (mode : Mode)
    (r₁ r₂ : TransformResult)
    (h₁ : r₁ = transform tree source mode) (h₂ : r₂ = transform tree source mode) :
    r₁ = r₂ ∧ r₁.content = r₂.content := by
  subst h₁; subst h₂; exact ⟨rfl, rfl⟩

theorem transform_deterministic_witness :
    transform sigTree sigSource Mode.Structure = transform sigTree sigSource Mode.Structure
    ∧ (transform sigTree sigSource Mode.Structure).content =
        (transform sigTree sigSource Mode.Structure).content :=
  transform_deterministic sigTree sigSource Mode.Structure _ _ rfl rfl

/-- Claim C10: the result record satisfies `originalSize = length source`
and `transformedSize = length content`; for the empty source the
percentage is the non-finite outcome of dividing by zero (modelled as
`none`). -/
theorem transform_result_sizes (tree : TSNode) (source : List Char) (mode : Mode) :
    (transform tree source mode).originalSize = source.length
    ∧ (transform tree source mode).transformedSize = (transform tree source mode).content.length
    ∧ (source = [] → (transform tree source mode).reductionPercentage = none) := by
  refine ⟨rfl, rfl, fun hs => ?_⟩
  subst hs
  simp [transform]

theorem transform_result_sizes_witness :
    ([] : List Char) = []
    ∧ (transform sigTree [] Mode.Structure).reductionPercentage = none :=
  ⟨rfl, (transform_result_sizes sigTree [] Mode.Structure).2.2 rfl⟩

end Skim
